import Mathlib

/-!
A shallow embedding of `src/streaming_system.py` (Real-Time-Data-Streaming):
the `StreamMessage` dataclass and the `StreamBroker`, `StreamConsumer`,
`StreamProducer` and `StreamProcessor` classes, together with proofs about
the broker's publish/consume/create-topic operations, consumer subscription,
and the processor pipeline.

Modelling conventions:
* Python dicts are association lists (`assocGet` / `assocSet`), preserving
  insertion order and overwrite-in-place semantics; Python sets of strings
  are duplicate-free lists (`setInsert` / `setUpdate`).
* JSON-like payload values are `Val` (strings, rationals for Python numbers,
  null); `datetime` timestamps are opaque `Nat` values supplied by callers.
* Python's built-in `hash` on strings is an arbitrary parameter
  `h : String → Int` (the code only relies on it being deterministic within
  one process run); Python's `%` with a positive modulus agrees with
  `Int.emod`, which is Lean's `%` on `Int`.
* `threading.Lock` is non-reentrant: acquiring a lock that is already held
  blocks the calling thread forever.  The broker's `locked` flag models the
  lock, and an operation that would block forever is modelled as `none`.
  In particular `StreamBroker.publish` on an unknown topic calls
  `create_topic` while already holding the lock, so it deadlocks.
* A raised-and-caught Python exception is modelled by the branch the
  `except` clause produces: for example `hash(key) % 0` raises
  `ZeroDivisionError`, which `publish`'s `except` turns into `False` with
  the broker state unchanged.
-/

namespace StreamSys

/-- JSON-like payload values stored in a `StreamMessage.value` dict.
Python numbers are modelled as rationals. -/
inductive Val where
  | str : String → Val
  | num : Rat → Val
  | null : Val
  deriving DecidableEq

/-- A Python dict payload: insertion-ordered association list. -/
abbrev Payload := List (String × Val)

/-- Lookup in a Python dict modelled as an association list. -/
def assocGet {α : Type} : List (String × α) → String → Option α
  | [], _ => none
  | (k', v) :: rest, k => if k' = k then some v else assocGet rest k

/-- `d[k] = v` on a Python dict: overwrite in place if the key exists,
otherwise append at the end (insertion order). -/
def assocSet {α : Type} : List (String × α) → String → α → List (String × α)
  | [], k, v => [(k, v)]
  | (k', v') :: rest, k, v =>
    if k' = k then (k, v) :: rest else (k', v') :: assocSet rest k v

/-- The `StreamMessage` dataclass: topic, key, value, timestamp and the
broker-assigned partition (dataclass default `0`). -/
structure StreamMessage where
  topic : String
  key : String
  value : Payload
  timestamp : Nat
  partition : Int := 0
  deriving DecidableEq

/-- One entry of `StreamBroker.topics`: the dict
`{'partitions': n, 'messages': [[] for _ in range(n)]}`. -/
structure Topic where
  partitions : Nat
  messages : List (List StreamMessage)
  deriving DecidableEq

/-- The broker state: `self.topics`, `self.consumers` (consumer handles are
numeric ids) and `self.lock` (a non-reentrant `threading.Lock`; `locked`
is true while some operation holds it). -/
structure StreamBroker where
  topics : List (String × Topic) := []
  consumers : List (String × List Nat) := []
  locked : Bool := false
  deriving DecidableEq

/-- `self.lock.acquire()`: blocks forever (`none`) if the non-reentrant lock
is already held, otherwise takes it. -/
def acquire (b : StreamBroker) : Option StreamBroker :=
  if b.locked then none else some { b with locked := true }

/-- `self.lock.release()` at the end of a `with self.lock:` block. -/
def release (b : StreamBroker) : StreamBroker :=
  { b with locked := false }

/-- `StreamBroker.create_topic`: under the lock, if the topic is unknown,
allocate `partitions` empty logs and an empty consumer list; otherwise do
nothing. -/
def create_topic (b : StreamBroker) (topic : String) (partitions : Nat := 1) :
    Option StreamBroker :=
  match acquire b with
  | none => none
  | some b1 =>
    if (assocGet b1.topics topic).isSome then some (release b1)
    else
      some (release { b1 with
        topics := assocSet b1.topics topic ⟨partitions, List.replicate partitions []⟩,
        consumers := assocSet b1.consumers topic [] })

/-- `self.topics[t]['messages'][i].append(m)`: append `m` at the tail of the
`i`-th partition log (in the code `i` is always in range). -/
def appendAt : List (List StreamMessage) → Nat → StreamMessage → List (List StreamMessage)
  | [], _, _ => []
  | L :: rest, 0, m => (L ++ [m]) :: rest
  | L :: rest, i + 1, m => L :: appendAt rest i m

/-- The body of `StreamBroker.publish` once the topic entry `T` is at hand
and the lock is held by `b1`: `partition = hash(key) % partitions`, assign
it to the message, append to that partition's log, return `True`.  When
`partitions = 0` the modulo raises `ZeroDivisionError`, the `with` block
releases the lock and the `except` returns `False` with nothing changed. -/
def publishCore (h : String → Int) (b1 : StreamBroker) (T : Topic) (m : StreamMessage) :
    Bool × StreamMessage × StreamBroker :=
  if T.partitions = 0 then
    (false, m, release b1)
  else
    let p : Int := h m.key % (T.partitions : Int)
    let m' := { m with partition := p }
    let T' : Topic := { T with messages := appendAt T.messages p.toNat m' }
    (true, m', release { b1 with topics := assocSet b1.topics m.topic T' })

/-- `StreamBroker.publish`.  If the topic is unknown, the code calls
`self.create_topic` while already holding the non-reentrant `self.lock`;
the nested acquire blocks forever, modelled by `create_topic` returning
`none` on a locked broker.  Returns the flag, the (possibly mutated)
message and the new broker state. -/
def publish (h : String → Int) (b : StreamBroker) (m : StreamMessage) :
    Option (Bool × StreamMessage × StreamBroker) :=
  match acquire b with
  | none => none
  | some b1 =>
    match assocGet b1.topics m.topic with
    | some T => some (publishCore h b1 T m)
    | none =>
      match create_topic b1 m.topic 1 with
      | none => none
      | some b2 =>
        match assocGet b2.topics m.topic with
        | some T => some (publishCore h b2 T m)
        | none => some (false, m, release b2)

/-- `StreamBroker.consume`: under the lock, for each partition in index
order take up to `maxMessages` records from the head and delete them;
unknown topics yield an empty batch.  `gid` is accepted but unused, as in
the code. -/
def consume (b : StreamBroker) (topic : String) (_gid : String) (maxMessages : Nat := 10) :
    Option (List StreamMessage × StreamBroker) :=
  match acquire b with
  | none => none
  | some b1 =>
    match assocGet b1.topics topic with
    | none => some ([], release b1)
    | some T =>
      let T' : Topic := { T with messages := T.messages.map (fun l => l.drop maxMessages) }
      some ((T.messages.map (fun l => l.take maxMessages)).flatten,
        release { b1 with topics := assocSet b1.topics topic T' })

/-- `StreamBroker.add_consumer`: ensure the topic has a consumer list and
append the handle — duplicates are appended as-is. -/
def add_consumer (b : StreamBroker) (topic : String) (cid : Nat) : StreamBroker :=
  { b with consumers :=
      assocSet b.consumers topic (((assocGet b.consumers topic).getD []) ++ [cid]) }

/-- The `StreamConsumer` fields the claims need: group id and the
subscription set (a Python `set`, kept duplicate-free). -/
structure StreamConsumer where
  group_id : String
  subscribed_topics : List String := []
  deriving DecidableEq

/-- Adding one element to a Python `set` of strings. -/
def setInsert (s : List String) (t : String) : List String :=
  if t ∈ s then s else s ++ [t]

/-- `set.update(ts)`. -/
def setUpdate (s : List String) (ts : List String) : List String :=
  ts.foldl setInsert s

/-- `StreamConsumer.subscribe`: union the topics into the subscription set
and call `broker.add_consumer` for each topic (even if already
subscribed). -/
def subscribe (b : StreamBroker) (c : StreamConsumer) (cid : Nat) (topics : List String) :
    StreamBroker × StreamConsumer :=
  (topics.foldl (fun bb t => add_consumer bb t cid) b,
   { c with subscribed_topics := setUpdate c.subscribed_topics topics })

/-- The inner delivery loop of `StreamConsumer.start_consuming` for one
consumed batch, with a handler installed.  `hd m = true` means the handler
returned normally on `m`; `hd m = false` means it raised.  Returns the
messages the handler was invoked on and whether an exception escaped the
batch (aborting the rest of it). -/
def deliverRun (hd : StreamMessage → Bool) : List StreamMessage → List StreamMessage × Bool
  | [] => ([], false)
  | m :: rest =>
    if hd m then
      let r := deliverRun hd rest
      (m :: r.1, r.2)
    else ([m], true)

/-- One iteration of the `while self.running` body of
`StreamConsumer.start_consuming`, sweeping the given topics in order: the
whole sweep sits inside one `try`, so a handler exception aborts the
remaining messages and topics of the sweep and is then caught (the loop
itself continues).  Returns the messages delivered to the handler and the
broker state after the sweep. -/
def consumer_sweep (hd : StreamMessage → Bool) (gid : String) :
    StreamBroker → List String → Option (List StreamMessage × StreamBroker)
  | b, [] => some ([], b)
  | b, t :: rest =>
    match consume b t gid 10 with
    | none => none
    | some (msgs, b1) =>
      match deliverRun hd msgs with
      | (invoked, true) => some (invoked, b1)
      | (invoked, false) =>
        match consumer_sweep hd gid b1 rest with
        | none => none
        | some (invoked2, b2) => some (invoked ++ invoked2, b2)

/-- `StreamProducer.send`: build a `StreamMessage` with the current time and
the default partition and delegate to `broker.publish`. -/
def send (h : String → Int) (b : StreamBroker) (topic key : String) (value : Payload)
    (now : Nat) : Option (Bool × StreamBroker) :=
  match publish h b { topic := topic, key := key, value := value, timestamp := now } with
  | none => none
  | some (ok, _, b') => some (ok, b')

/-- The `message_handler` closure built by `StreamProcessor.add_processor`:
apply the transform to the payload and republish under the original key;
any exception from the transform (modelled by `transform` returning `none`)
or the send is caught inside the handler, per record. -/
def processor_handler (h : String → Int) (now : Nat) (outputTopic : String)
    (transform : Payload → Option Payload) (b : StreamBroker) (m : StreamMessage) :
    Option StreamBroker :=
  match transform m.value with
  | none => some b
  | some td =>
    match send h b outputTopic m.key td now with
    | none => none
    | some (_, b') => some b'

/-- One sweep of the processor's poll loop over its single input topic:
consume a batch and run the processor handler on every record.  The
handler never lets an exception escape, so the fold visits all records. -/
def processor_sweep (h : String → Int) (now : Nat) (gid inputTopic outputTopic : String)
    (transform : Payload → Option Payload) (b : StreamBroker) : Option StreamBroker :=
  match consume b inputTopic gid 10 with
  | none => none
  | some (msgs, b1) =>
    msgs.foldlM (fun bb m => processor_handler h now outputTopic transform bb m) b1

/-- The `aggregate_events` transform from `main()`: copy the payload and set
`processed_at` and `event_score = value * 1.5` (default value 0); a
non-numeric `value` raises `TypeError`, modelled as `none`. -/
def aggregate_events (now : String) (data : Payload) : Option Payload :=
  match (assocGet data "value").getD (Val.num 0) with
  | Val.num q =>
    some (assocSet (assocSet data "processed_at" (Val.str now)) "event_score"
      (Val.num (q * (3 / 2))))
  | _ => none

/-! ### Association-list and list helper lemmas -/

theorem assocGet_assocSet_self {α : Type} (l : List (String × α)) (k : String) (v : α) :
    assocGet (assocSet l k v) k = some v := by
  induction l with
  | nil => simp [assocGet, assocSet]
  | cons p rest ih =>
    obtain ⟨k', v'⟩ := p
    by_cases hk : k' = k
    · simp [assocGet, assocSet, hk]
    · simp [assocGet, assocSet, hk, ih]

theorem assocGet_assocSet_ne {α : Type} (l : List (String × α)) (k k' : String) (v : α)
    (hkk : k ≠ k') : assocGet (assocSet l k v) k' = assocGet l k' := by
  induction l with
  | nil => simp [assocGet, assocSet, hkk]
  | cons p rest ih =>
    obtain ⟨k0, v0⟩ := p
    by_cases hk : k0 = k
    · subst hk
      simp [assocGet, assocSet, hkk]
    · by_cases hk' : k0 = k'
      · simp [assocGet, assocSet, hk, hk', Ne.symm hkk]
      · simp [assocGet, assocSet, hk, hk', ih]

theorem appendAt_getD_self (logs : List (List StreamMessage)) (i : Nat) (m : StreamMessage)
    (hi : i < logs.length) :
    (appendAt logs i m).getD i [] = logs.getD i [] ++ [m] := by
  induction logs generalizing i with
  | nil => simp at hi
  | cons L rest ih =>
    cases i with
    | zero => simp [appendAt]
    | succ j => simpa [appendAt] using ih j (by simpa using hi)

theorem appendAt_getD_other (logs : List (List StreamMessage)) (i j : Nat) (m : StreamMessage)
    (hij : j ≠ i) : (appendAt logs i m).getD j [] = logs.getD j [] := by
  induction logs generalizing i j with
  | nil => simp [appendAt]
  | cons L rest ih =>
    cases i with
    | zero =>
      cases j with
      | zero => exact absurd rfl hij
      | succ jj => simp [appendAt]
    | succ ii =>
      cases j with
      | zero => simp [appendAt]
      | succ jj => simpa [appendAt] using ih ii jj (fun hh => hij (by rw [hh]))

theorem flatten_take_length_le (n : Nat) (L : List (List StreamMessage)) :
    ((L.map (fun l => l.take n)).flatten).length ≤ n * L.length := by
  induction L with
  | nil => simp
  | cons a L ih =>
    simp only [List.map_cons, List.flatten_cons, List.length_append, List.length_cons,
      Nat.mul_succ]
    have h1 := List.length_take_le n a
    omega

theorem map_self_of_mem {α : Type} (l : List α) (f : α → α) (hf : ∀ x ∈ l, f x = x) :
    l.map f = l := by
  induction l with
  | nil => rfl
  | cons a l ih =>
    simp only [List.map_cons, hf a (by simp), ih (fun x hx => hf x (by simp [hx]))]

theorem getD_map_take (n : Nat) (L : List (List StreamMessage)) (i : Nat) :
    (L.map (fun l => l.take n)).getD i [] = (L.getD i []).take n := by
  induction L generalizing i with
  | nil => simp
  | cons a L ih =>
    cases i with
    | zero => simp
    | succ j => simpa using ih j

theorem deliverRun_append_eq (hd : StreamMessage → Bool) (l : List StreamMessage) :
    ∃ rest, (deliverRun hd l).1 ++ rest = l := by
  induction l with
  | nil => exact ⟨[], rfl⟩
  | cons m l ih =>
    by_cases hm : hd m
    · obtain ⟨rest, hrest⟩ := ih
      exact ⟨rest, by simp [deliverRun, hm, hrest]⟩
    · exact ⟨l, by simp [deliverRun, hm]⟩

theorem deliverRun_all_of_no_exc (hd : StreamMessage → Bool) (l : List StreamMessage) :
    (deliverRun hd l).2 = false → (deliverRun hd l).1 = l := by
  induction l with
  | nil => intro _; rfl
  | cons m l ih =>
    by_cases hm : hd m
    · intro hex
      have h2 : (deliverRun hd l).2 = false := by simpa [deliverRun, hm] using hex
      simp [deliverRun, hm, ih h2]
    · intro hex
      simp [deliverRun, hm] at hex

/-! ### Evaluation lemmas for the broker operations -/

theorem create_topic_of_known (b : StreamBroker) (T : Topic) (t : String) (p : Nat)
    (hb : b.locked = false) (hT : assocGet b.topics t = some T) :
    create_topic b t p = some b := by
  obtain ⟨tps, cns, lk⟩ := b
  subst hb
  simp [create_topic, acquire, release, hT]

theorem create_topic_of_new (b : StreamBroker) (t : String) (p : Nat)
    (hb : b.locked = false) (hT : assocGet b.topics t = none) :
    create_topic b t p = some
      { b with topics := assocSet b.topics t ⟨p, List.replicate p []⟩,
               consumers := assocSet b.consumers t [] } := by
  obtain ⟨tps, cns, lk⟩ := b
  subst hb
  simp [create_topic, acquire, release, hT]

theorem publish_of_known (h : String → Int) (b : StreamBroker) (m : StreamMessage) (T : Topic)
    (hb : b.locked = false) (hT : assocGet b.topics m.topic = some T) :
    publish h b m = some (publishCore h { b with locked := true } T m) := by
  obtain ⟨tps, cns, lk⟩ := b
  subst hb
  simp [publish, acquire, hT]

theorem consume_of_known (b : StreamBroker) (T : Topic) (t g : String) (n : Nat)
    (hb : b.locked = false) (hT : assocGet b.topics t = some T) :
    consume b t g n = some ((T.messages.map (fun l => l.take n)).flatten,
      { b with topics := assocSet b.topics t (⟨T.partitions,
          T.messages.map (fun l => l.drop n)⟩ : Topic) }) := by
  obtain ⟨tps, cns, lk⟩ := b
  subst hb
  simp [consume, acquire, release, hT]

theorem consume_of_unknown (b : StreamBroker) (t g : String) (n : Nat)
    (hb : b.locked = false) (hT : assocGet b.topics t = none) :
    consume b t g n = some ([], b) := by
  obtain ⟨tps, cns, lk⟩ := b
  subst hb
  simp [consume, acquire, release, hT]

theorem publishCore_of_pos (h : String → Int) (b1 : StreamBroker) (T : Topic)
    (m : StreamMessage) (hp : T.partitions ≠ 0) :
    publishCore h b1 T m =
      (true, { m with partition := h m.key % (T.partitions : Int) },
        release { b1 with topics := assocSet b1.topics m.topic (⟨T.partitions,
          appendAt T.messages (h m.key % (T.partitions : Int)).toNat
            { m with partition := h m.key % (T.partitions : Int) }⟩ : Topic) }) := by
  simp [publishCore, hp]

theorem publishCore_of_zero (h : String → Int) (b1 : StreamBroker) (T : Topic)
    (m : StreamMessage) (hp : T.partitions = 0) :
    publishCore h b1 T m = (false, m, release b1) := by
  simp [publishCore, hp]

/-! ### Concrete sample inputs used by witnesses and counterexamples -/

/-- A trivial stand-in for Python's string hash (any function works for most
claims; CPython's hash of the empty string is 0, which this one matches). -/
def hzero : String → Int := fun _ => 0

def msgA : StreamMessage := { topic := "t", key := "a", value := [], timestamp := 0 }

def msgB : StreamMessage := { topic := "t", key := "b", value := [], timestamp := 1 }

def sampleTopic : Topic := ⟨1, [[msgA, msgB]]⟩

def sampleBroker : StreamBroker :=
  { topics := [("t", sampleTopic)], consumers := [("t", [])], locked := false }

/-! ### The claims -/

/-- C1: for every topic and partition, `consume` returns that partition's
records in publish (FIFO) order, taking them from the head of the log and
removing exactly the records it returns; with no interleaved foreign
consumption and no new publishes, a second `consume` returns the
non-overlapping continuation (no duplication, no loss), and once the logs
are exhausted `consume` returns the empty sequence and changes nothing. -/
theorem consume_fifo_destructive (b : StreamBroker) (T : Topic) (t g : String) (n : Nat)
    (hb : b.locked = false) (hT : assocGet b.topics t = some T) :
    ∃ b1 b2 : StreamBroker,
      consume b t g n = some ((T.messages.map (fun l => l.take n)).flatten, b1) ∧
      assocGet b1.topics t =
        some (⟨T.partitions, T.messages.map (fun l => l.drop n)⟩ : Topic) ∧
      (∀ L ∈ T.messages, L.take n ++ L.drop n = L) ∧
      consume b1 t g n =
        some (((T.messages.map (fun l => l.drop n)).map (fun l => l.take n)).flatten, b2) ∧
      (∀ L ∈ T.messages, L.take n ++ (L.drop n).take n = L.take (n + n)) ∧
      ((∀ L ∈ T.messages, L = []) →
        (T.messages.map (fun l => l.take n)).flatten = [] ∧
        T.messages.map (fun l => l.drop n) = T.messages) := by
  have h1 := consume_of_known b T t g n hb hT
  have h2 := consume_of_known
    { b with topics := assocSet b.topics t (⟨T.partitions,
        T.messages.map (fun l => l.drop n)⟩ : Topic) }
    ⟨T.partitions, T.messages.map (fun l => l.drop n)⟩ t g n hb
    (assocGet_assocSet_self _ _ _)
  refine ⟨_, _, h1, assocGet_assocSet_self _ _ _, fun L _ => List.take_append_drop n L,
    h2, fun L _ => (List.take_add L n n).symm, fun hall => ?_⟩
  constructor
  · rw [List.flatten_eq_nil_iff]
    intro l hl
    obtain ⟨L, hL, rfl⟩ := List.mem_map.mp hl
    rw [hall L hL, List.take_nil]
  · exact map_self_of_mem _ _ (fun L hL => by rw [hall L hL, List.drop_nil])

/-- Witness for C1: on a one-partition topic holding `[msgA, msgB]`, two
successive single-record consumes return `msgA` then `msgB`. -/
theorem consume_fifo_destructive_witness :
    ∃ b1 b2 : StreamBroker,
      consume sampleBroker "t" "g" 1 = some ([msgA], b1) ∧
      consume b1 "t" "g" 1 = some ([msgB], b2) := by
  obtain ⟨b1, b2, h1, _, _, h4, _, _⟩ :=
    consume_fifo_destructive sampleBroker sampleTopic "t" "g" 1 rfl rfl
  exact ⟨b1, b2, by simpa [sampleTopic] using h1, by simpa [sampleTopic] using h4⟩

/-- C2: for a known topic, `consume` takes up to `n` records from the head of
each partition's log, sweeping partitions in index order and concatenating
the batches in that order; the `n` bound applies per partition, so the
total returned is at most `n * partition_count`. -/
theorem consume_per_partition_bound (b : StreamBroker) (T : Topic) (t g : String) (n : Nat)
    (hb : b.locked = false) (hT : assocGet b.topics t = some T)
    (hlen : T.messages.length = T.partitions) :
    ∃ b1 : StreamBroker,
      consume b t g n = some ((T.messages.map (fun l => l.take n)).flatten, b1) ∧
      (∀ i : Nat,
        (T.messages.map (fun l => l.take n)).getD i [] = (T.messages.getD i []).take n) ∧
      assocGet b1.topics t =
        some (⟨T.partitions, T.messages.map (fun l => l.drop n)⟩ : Topic) ∧
      ((T.messages.map (fun l => l.take n)).flatten).length ≤ n * T.partitions := by
  refine ⟨_, consume_of_known b T t g n hb hT, getD_map_take n T.messages,
    assocGet_assocSet_self _ _ _, ?_⟩
  calc ((T.messages.map (fun l => l.take n)).flatten).length
      ≤ n * T.messages.length := flatten_take_length_le n T.messages
    _ = n * T.partitions := by rw [hlen]

/-- Witness for C2 at the sample broker: the default batch size returns both
records of the single partition, within the `10 * 1` bound. -/
theorem consume_per_partition_bound_witness :
    ∃ b1 : StreamBroker,
      consume sampleBroker "t" "g" 10 = some ([msgA, msgB], b1) ∧
      ([msgA, msgB] : List StreamMessage).length ≤ 10 * 1 := by
  obtain ⟨b1, h1, _, _, h4⟩ :=
    consume_per_partition_bound sampleBroker sampleTopic "t" "g" 10 rfl rfl rfl
  exact ⟨b1, by simpa [sampleTopic] using h1, by simp⟩

/-- C3: `create_topic` is idempotent: a second call for an existing name is a
no-op whose parameters are ignored and that raises no error, leaving the
partition count and the partition logs unchanged. -/
theorem create_topic_idempotent (b : StreamBroker) (t : String) (p p' : Nat)
    (hb : b.locked = false) (hT : assocGet b.topics t = none) :
    ∃ (b1 : StreamBroker) (T : Topic),
      create_topic b t p = some b1 ∧
      assocGet b1.topics t = some T ∧
      T.partitions = p ∧
      T.messages = List.replicate p [] ∧
      create_topic b1 t p' = some b1 := by
  refine ⟨_, ⟨p, List.replicate p []⟩, create_topic_of_new b t p hb hT,
    assocGet_assocSet_self _ _ _, rfl, rfl, ?_⟩
  exact create_topic_of_known _ ⟨p, List.replicate p []⟩ t p' hb (assocGet_assocSet_self _ _ _)

/-- Witness for C3: `create_topic("t", 4)` then `create_topic("t", 9)` leaves
the topic at 4 partitions with unchanged logs. -/
theorem create_topic_idempotent_witness :
    ∃ (b1 : StreamBroker) (T : Topic),
      create_topic ({} : StreamBroker) "t" 4 = some b1 ∧
      assocGet b1.topics "t" = some T ∧
      T.partitions = 4 ∧
      T.messages = List.replicate 4 [] ∧
      create_topic b1 "t" 9 = some b1 :=
  create_topic_idempotent {} "t" 4 9 rfl rfl

/-- C4 (code bug): instead of implicitly creating the unknown topic with one
partition and returning `true`, `publish` calls `create_topic` while
already holding the broker's non-reentrant lock, so the nested acquire
blocks forever: the call never returns (`none`), the topic is never
created and nothing is appended. -/
theorem publish_unknown_topic_deadlocks (h : String → Int) (b : StreamBroker)
    (m : StreamMessage) (hb : b.locked = false) (hT : assocGet b.topics m.topic = none) :
    publish h b m = none := by
  obtain ⟨tps, cns, lk⟩ := b
  subst hb
  simp [publish, acquire, create_topic, hT]

/-- Witness for C4: publishing to a fresh broker with no topics hangs. -/
theorem publish_unknown_topic_deadlocks_witness :
    publish hzero {} { topic := "events", key := "k", value := [], timestamp := 0 } = none :=
  publish_unknown_topic_deadlocks hzero {}
    { topic := "events", key := "k", value := [], timestamp := 0 } rfl rfl

/-- C7: every record accepted by `publish` gets a broker-assigned partition in
`[0, partition_count)` for its topic; the partition field is set exactly
once during publish (the stored record and the returned record are the
same updated message, appended at the tail of that partition's log), no
other field of the record changes, and every other partition log — with
every record already in it — is untouched. -/
theorem publish_partition_invariant (h : String → Int) (b : StreamBroker) (m : StreamMessage)
    (T : Topic) (hb : b.locked = false) (hT : assocGet b.topics m.topic = some T)
    (hp : 0 < T.partitions) (hlen : T.messages.length = T.partitions) :
    ∃ p : Int,
      0 ≤ p ∧ p < (T.partitions : Int) ∧
      publish h b m = some (true, { m with partition := p },
        { b with topics := assocSet b.topics m.topic (⟨T.partitions,
          appendAt T.messages p.toNat { m with partition := p }⟩ : Topic) }) ∧
      ({ m with partition := p } : StreamMessage).topic = m.topic ∧
      ({ m with partition := p } : StreamMessage).key = m.key ∧
      ({ m with partition := p } : StreamMessage).value = m.value ∧
      ({ m with partition := p } : StreamMessage).timestamp = m.timestamp ∧
      (appendAt T.messages p.toNat { m with partition := p }).getD p.toNat [] =
        T.messages.getD p.toNat [] ++ [{ m with partition := p }] ∧
      (∀ j : Nat, j ≠ p.toNat →
        (appendAt T.messages p.toNat { m with partition := p }).getD j [] =
          T.messages.getD j []) := by
  obtain ⟨tps, cns, lk⟩ := b
  subst hb
  have hcast : (0 : Int) < (T.partitions : Int) := by exact_mod_cast hp
  have hnn : 0 ≤ h m.key % (T.partitions : Int) :=
    Int.emod_nonneg _ (by exact_mod_cast hp.ne')
  have hlt : h m.key % (T.partitions : Int) < (T.partitions : Int) :=
    Int.emod_lt_of_pos _ hcast
  have hidx : (h m.key % (T.partitions : Int)).toNat < T.messages.length := by
    rw [hlen]
    exact (Int.toNat_lt hnn).mpr hlt
  have hpub := publish_of_known h ⟨tps, cns, false⟩ m T rfl hT
  rw [publishCore_of_pos h _ T m hp.ne'] at hpub
  exact ⟨h m.key % (T.partitions : Int), hnn, hlt, hpub, rfl, rfl, rfl, rfl,
    appendAt_getD_self _ _ _ hidx, fun j hj => appendAt_getD_other _ _ _ _ hj⟩

/-- Witness for C7: publishing to the sample one-partition topic assigns a
partition in `[0, 1)` and returns `true`. -/
theorem publish_partition_invariant_witness :
    ∃ p : Int, 0 ≤ p ∧ p < ((sampleTopic.partitions : Nat) : Int) ∧
      ∃ r : Bool × StreamMessage × StreamBroker,
        publish hzero sampleBroker { topic := "t", key := "c", value := [], timestamp := 2 } =
          some r ∧ r.1 = true ∧ r.2.1.partition = p := by
  obtain ⟨p, h0, h1, h2, _⟩ := publish_partition_invariant hzero sampleBroker
    { topic := "t", key := "c", value := [], timestamp := 2 } sampleTopic rfl rfl
    (by decide) rfl
  exact ⟨p, h0, h1, _, h2, rfl, rfl⟩

/-- C8: publishing a record whose key is the empty string assigns it
partition 0 (CPython hashes the empty string to 0, modelled by the
hypothesis `h "" = 0`), for any topic with a positive partition count. -/
theorem empty_key_partition_zero (h : String → Int) (b : StreamBroker) (m : StreamMessage)
    (T : Topic) (hb : b.locked = false) (hT : assocGet b.topics m.topic = some T)
    (hp : 0 < T.partitions) (hkey : m.key = "") (hh : h "" = 0) :
    publish h b m = some (true, { m with partition := 0 },
      { b with topics := assocSet b.topics m.topic (⟨T.partitions,
        appendAt T.messages 0 { m with partition := 0 }⟩ : Topic) }) := by
  obtain ⟨tps, cns, lk⟩ := b
  subst hb
  have hpub := publish_of_known h ⟨tps, cns, false⟩ m T rfl hT
  rw [publishCore_of_pos h _ T m hp.ne'] at hpub
  rw [hpub, hkey, hh]
  simp [release]

/-- Witness for C8: an empty-key record published to the sample broker lands
in partition 0. -/
theorem empty_key_partition_zero_witness :
    publish hzero sampleBroker { topic := "t", key := "", value := [], timestamp := 3 } =
      some (true, { topic := "t", key := "", value := [], timestamp := 3, partition := 0 },
        { sampleBroker with topics := assocSet sampleBroker.topics "t" (⟨1,
          appendAt sampleTopic.messages 0
            { topic := "t", key := "", value := [], timestamp := 3, partition := 0 }⟩ :
          Topic) }) :=
  empty_key_partition_zero hzero sampleBroker
    { topic := "t", key := "", value := [], timestamp := 3 } sampleTopic rfl rfl
    (by decide) rfl rfl

/-- C10: the code does not enforce a positive partition count:
`create_topic(name, 0)` creates a topic with zero partitions, and every
subsequent publish of a record to that topic has `hash(key) % 0` raise
`ZeroDivisionError`, which is caught internally and surfaced as `False`,
leaving the broker's topic state unchanged. -/
theorem zero_partition_topic_publish_false (h : String → Int) (b : StreamBroker)
    (name : String) (hb : b.locked = false) (hT : assocGet b.topics name = none) :
    ∃ b1 : StreamBroker,
      create_topic b name 0 = some b1 ∧
      assocGet b1.topics name = some (⟨0, []⟩ : Topic) ∧
      ∀ m : StreamMessage, m.topic = name → publish h b1 m = some (false, m, b1) := by
  obtain ⟨tps, cns, lk⟩ := b
  subst hb
  refine ⟨_, create_topic_of_new ⟨tps, cns, false⟩ name 0 rfl hT,
    assocGet_assocSet_self _ _ _, fun m hm => ?_⟩
  have hT' : assocGet (assocSet tps name (⟨0, List.replicate 0 []⟩ : Topic)) m.topic =
      some ⟨0, List.replicate 0 []⟩ := by
    rw [hm]
    exact assocGet_assocSet_self _ _ _
  have hpub := publish_of_known h
    ⟨assocSet tps name (⟨0, List.replicate 0 []⟩ : Topic), assocSet cns name [], false⟩
    m ⟨0, List.replicate 0 []⟩ rfl hT'
  rw [publishCore_of_zero h _ _ m rfl] at hpub
  exact hpub

/-- Witness for C10: on a fresh broker, `create_topic("z", 0)` then a publish
to `"z"` returns `False` and changes nothing. -/
theorem zero_partition_topic_publish_false_witness :
    ∃ b1 : StreamBroker,
      create_topic ({} : StreamBroker) "z" 0 = some b1 ∧
      assocGet b1.topics "z" = some (⟨0, []⟩ : Topic) ∧
      publish hzero b1 { topic := "z", key := "k", value := [], timestamp := 0 } =
        some (false, { topic := "z", key := "k", value := [], timestamp := 0 }, b1) := by
  obtain ⟨b1, h1, h2, h3⟩ := zero_partition_topic_publish_false hzero {} "z" rfl rfl
  exact ⟨b1, h1, h2, h3 _ rfl⟩

/-! ### C5: handler faults -/

def msgBad : StreamMessage := { topic := "t", key := "bad", value := [], timestamp := 0 }

def msgOk : StreamMessage := { topic := "t", key := "ok", value := [], timestamp := 1 }

def faultTopic : Topic := ⟨1, [[msgBad, msgOk]]⟩

def faultBroker : StreamBroker :=
  { topics := [("t", faultTopic)], consumers := [("t", [])], locked := false }

/-- A consumer handler that raises exactly on records with key `"bad"`. -/
def faultHandler : StreamMessage → Bool := fun m => m.key != "bad"

/-- A processor transform that raises on every payload. -/
def failTransform : Payload → Option Payload := fun _ => none

/-- C5 counterexample: with a handler that raises on `msgBad`, one poll sweep
consumes both records of the topic (both are removed from the broker's
log, which ends empty) but invokes the handler only on `msgBad`: `msgOk`,
returned by the very same sweep, is never delivered.  This refutes the
claim that every other record returned by the sweep is still delivered
when a consumer's message handler raises. -/
theorem handler_fault_sweep_loss_cex :
    consumer_sweep faultHandler "g" faultBroker ["t"] =
      some ([msgBad],
        { topics := [("t", (⟨1, [[]]⟩ : Topic))], consumers := [("t", [])],
          locked := false }) ∧
    msgOk ∉ [msgBad] := by
  constructor
  · rfl
  · decide

/-- C5 corrected: a fault in a plain consumer's message handler is caught at
the poll-loop boundary — the sweep returns normally, so the loop does not
stop — but it aborts the remainder of that sweep: the delivered records
are always a prefix of the consumed batch, and the whole batch only when
no handler fault occurred.  A fault in a processor's transform, by
contrast, is caught inside the per-record handler: it leaves the broker
untouched for that record and does not prevent the handling of the
remaining records of the sweep. -/
theorem handler_fault_isolation_amended :
    (∀ (hd : StreamMessage → Bool) (g t : String) (b : StreamBroker) (T : Topic),
      b.locked = false → assocGet b.topics t = some T →
      ∃ invoked exc b1,
        consumer_sweep hd g b [t] = some (invoked, b1) ∧
        deliverRun hd ((T.messages.map (fun l => l.take 10)).flatten) = (invoked, exc) ∧
        (∃ rest, invoked ++ rest = (T.messages.map (fun l => l.take 10)).flatten) ∧
        (exc = false → invoked = (T.messages.map (fun l => l.take 10)).flatten)) ∧
    (∀ (h : String → Int) (now : Nat) (out : String) (tr : Payload → Option Payload)
        (b : StreamBroker) (m : StreamMessage) (rest : List StreamMessage),
      tr m.value = none →
        processor_handler h now out tr b m = some b ∧
        (m :: rest).foldlM (fun bb mm => processor_handler h now out tr bb mm) b =
          rest.foldlM (fun bb mm => processor_handler h now out tr bb mm) b) := by
  constructor
  · intro hd g t b T hb hT
    have hc := consume_of_known b T t g 10 hb hT
    obtain ⟨rest0, hrest0⟩ :=
      deliverRun_append_eq hd ((T.messages.map (fun l => l.take 10)).flatten)
    rcases hde : deliverRun hd ((T.messages.map (fun l => l.take 10)).flatten)
      with ⟨invoked, exc⟩
    cases exc with
    | true =>
      refine ⟨invoked, true,
        { b with topics := assocSet b.topics t (⟨T.partitions,
            T.messages.map (fun l => l.drop 10)⟩ : Topic) }, ?_, hde, ?_, by simp⟩
      · simp [consumer_sweep, hc, hde]
      · exact ⟨rest0, by rw [hde] at hrest0; simpa using hrest0⟩
    | false =>
      have hall := deliverRun_all_of_no_exc hd
        ((T.messages.map (fun l => l.take 10)).flatten) (by rw [hde])
      rw [hde] at hall
      refine ⟨invoked, false,
        { b with topics := assocSet b.topics t (⟨T.partitions,
            T.messages.map (fun l => l.drop 10)⟩ : Topic) }, ?_, hde, ?_,
        fun _ => by simpa using hall⟩
      · simp [consumer_sweep, hc, hde]
      · exact ⟨rest0, by rw [hde] at hrest0; simpa using hrest0⟩
  · intro h now out tr b m rest htr
    constructor
    · simp [processor_handler, htr]
    · simp [List.foldlM, processor_handler, htr]

/-- Witness for the corrected C5, at the concrete faulting sweep and a
transform that always raises. -/
theorem handler_fault_isolation_amended_witness :
    (∃ invoked exc b1,
      consumer_sweep faultHandler "g" faultBroker ["t"] = some (invoked, b1) ∧
      deliverRun faultHandler ((faultTopic.messages.map (fun l => l.take 10)).flatten) =
        (invoked, exc) ∧
      (∃ rest, invoked ++ rest = (faultTopic.messages.map (fun l => l.take 10)).flatten) ∧
      (exc = false → invoked = (faultTopic.messages.map (fun l => l.take 10)).flatten)) ∧
    (processor_handler hzero 0 "out" failTransform faultBroker msgBad = some faultBroker ∧
      [msgBad].foldlM (fun bb mm => processor_handler hzero 0 "out" failTransform bb mm)
        faultBroker =
      ([] : List StreamMessage).foldlM
        (fun bb mm => processor_handler hzero 0 "out" failTransform bb mm) faultBroker) :=
  ⟨handler_fault_isolation_amended.1 faultHandler "g" "t" faultBroker faultTopic rfl rfl,
   handler_fault_isolation_amended.2 hzero 0 "out" failTransform faultBroker msgBad [] rfl⟩

/-! ### C6: double subscription -/

def subBroker : StreamBroker :=
  { topics := [("t", ⟨1, [[]]⟩)], consumers := [("t", [])], locked := false }

def subConsumer : StreamConsumer := { group_id := "g", subscribed_topics := ["t"] }

def subOnce : StreamBroker × StreamConsumer := subscribe subBroker ⟨"g", []⟩ 0 ["t"]

def subTwice : StreamBroker × StreamConsumer := subscribe subOnce.1 subOnce.2 0 ["t"]

/-- C6 counterexample: a second `subscribe(["t"])` leaves the consumer's
subscription set unchanged but does NOT leave the broker's registered-
consumer state identical to the state after the first call: the broker's
consumer list for `"t"` grows from one handle to two duplicate handles. -/
theorem double_subscribe_not_noop_cex :
    subTwice.2 = subOnce.2 ∧
    subTwice.1 ≠ subOnce.1 ∧
    assocGet subTwice.1.consumers "t" = some [0, 0] ∧
    assocGet subOnce.1.consumers "t" = some [0] := by
  refine ⟨rfl, ?_, rfl, rfl⟩
  decide

/-- C6 corrected: re-subscribing to an already subscribed topic raises no
error and leaves the consumer's subscription set (and the broker's topic
logs and lock) unchanged, but it appends a duplicate handle to the
broker's per-topic registered-consumer list instead of being a no-op
there. -/
theorem subscribe_second_time_amended (b : StreamBroker) (c : StreamConsumer) (cid : Nat)
    (t : String) (hmem : t ∈ c.subscribed_topics) :
    (subscribe b c cid [t]).2 = c ∧
    assocGet (subscribe b c cid [t]).1.consumers t =
      some ((assocGet b.consumers t).getD [] ++ [cid]) ∧
    (subscribe b c cid [t]).1.topics = b.topics ∧
    (subscribe b c cid [t]).1.locked = b.locked := by
  refine ⟨?_, ?_, rfl, rfl⟩
  · obtain ⟨g, subs⟩ := c
    simp only [subscribe, setUpdate, List.foldl, setInsert]
    simp at hmem
    simp [hmem]
  · simp [subscribe, add_consumer, assocGet_assocSet_self]

/-- Witness for the corrected C6 at the concrete double subscription. -/
theorem subscribe_second_time_amended_witness :
    "t" ∈ subConsumer.subscribed_topics ∧
    ((subscribe subOnce.1 subConsumer 0 ["t"]).2 = subConsumer ∧
     assocGet (subscribe subOnce.1 subConsumer 0 ["t"]).1.consumers "t" =
       some ((assocGet subOnce.1.consumers "t").getD [] ++ [0]) ∧
     (subscribe subOnce.1 subConsumer 0 ["t"]).1.topics = subOnce.1.topics ∧
     (subscribe subOnce.1 subConsumer 0 ["t"]).1.locked = subOnce.1.locked) :=
  ⟨by decide, subscribe_second_time_amended subOnce.1 subConsumer 0 "t" (by decide)⟩

/-! ### C9: processor pipeline end to end -/

/-- C9: a processor consuming a record whose payload has a numeric `value`
applies the transform (here `aggregate_events`, which adds
`event_score = value * 1.5`) and republishes the transformed payload to
the output topic under the record's original key: after one poll sweep the
output topic's assigned partition holds a record whose key is the input
key and whose payload's `event_score` is `value * 3/2`. -/
theorem processor_pipeline_end_to_end (h : String → Int) (now : Nat) (nowStr : String)
    (g it ot : String) (b : StreamBroker) (m : StreamMessage) (Ti To : Topic) (q : Rat)
    (hb : b.locked = false) (hio : it ≠ ot)
    (hTi : assocGet b.topics it = some Ti) (hmsgs : Ti.messages = [[m]])
    (hTo : assocGet b.topics ot = some To) (hp : 0 < To.partitions)
    (hq : assocGet m.value "value" = some (Val.num q)) :
    ∃ (b2 : StreamBroker) (p : Int),
      0 ≤ p ∧ p < (To.partitions : Int) ∧
      processor_sweep h now g it ot (aggregate_events nowStr) b = some b2 ∧
      assocGet b2.topics ot = some (⟨To.partitions,
        appendAt To.messages p.toNat
          { topic := ot, key := m.key,
            value := assocSet (assocSet m.value "processed_at" (Val.str nowStr))
              "event_score" (Val.num (q * (3 / 2))),
            timestamp := now, partition := p }⟩ : Topic) ∧
      assocGet (assocSet (assocSet m.value "processed_at" (Val.str nowStr)) "event_score"
        (Val.num (q * (3 / 2)))) "event_score" = some (Val.num (q * (3 / 2))) := by
  obtain ⟨tps, cns, lk⟩ := b
  subst hb
  have hc := consume_of_known ⟨tps, cns, false⟩ Ti it g 10 rfl hTi
  rw [hmsgs] at hc
  have htake : (([[m]] : List (List StreamMessage)).map (fun l => l.take 10)).flatten
      = [m] := rfl
  have hdrop : ([[m]] : List (List StreamMessage)).map (fun l => l.drop 10) = [[]] := rfl
  rw [htake, hdrop] at hc
  have hTo1 : assocGet (assocSet tps it (⟨Ti.partitions, [[]]⟩ : Topic)) ot = some To :=
    (assocGet_assocSet_ne tps it ot _ hio).trans hTo
  have htr : aggregate_events nowStr m.value =
      some (assocSet (assocSet m.value "processed_at" (Val.str nowStr)) "event_score"
        (Val.num (q * (3 / 2)))) := by
    simp [aggregate_events, hq]
  have hpub := publish_of_known h
    ⟨assocSet tps it (⟨Ti.partitions, [[]]⟩ : Topic), cns, false⟩
    ⟨ot, m.key,
      assocSet (assocSet m.value "processed_at" (Val.str nowStr)) "event_score"
        (Val.num (q * (3 / 2))), now, 0⟩ To rfl hTo1
  rw [publishCore_of_pos h _ To _ hp.ne'] at hpub
  have hcast : (0 : Int) < (To.partitions : Int) := by exact_mod_cast hp
  refine ⟨⟨assocSet (assocSet tps it (⟨Ti.partitions, [[]]⟩ : Topic)) ot (⟨To.partitions,
      appendAt To.messages (h m.key % (To.partitions : Int)).toNat
        { topic := ot, key := m.key,
          value := assocSet (assocSet m.value "processed_at" (Val.str nowStr)) "event_score"
            (Val.num (q * (3 / 2))),
          timestamp := now, partition := h m.key % (To.partitions : Int) }⟩ : Topic),
      cns, false⟩,
    h m.key % (To.partitions : Int),
    Int.emod_nonneg _ (by exact_mod_cast hp.ne'), Int.emod_lt_of_pos _ hcast, ?_, ?_, ?_⟩
  · simp [processor_sweep, hc, List.foldlM, processor_handler, htr, send, hpub, release]
  · exact assocGet_assocSet_self _ _ _
  · exact assocGet_assocSet_self _ _ _

def inMsg : StreamMessage :=
  { topic := "in", key := "k", value := [("value", Val.num 10)], timestamp := 0 }

def pipeBroker : StreamBroker :=
  { topics := [("in", ⟨1, [[inMsg]]⟩), ("out", ⟨1, [[]]⟩)], consumers := [], locked := false }

/-- Witness for C9: publishing a payload with `value = 10` through the
`aggregate_events` transform yields an `"out"` record with
`event_score = 15` under the original key `"k"`. -/
theorem processor_pipeline_end_to_end_witness :
    ∃ b2 : StreamBroker,
      processor_sweep hzero 5 "g" "in" "out" (aggregate_events "T0") pipeBroker = some b2 ∧
      assocGet b2.topics "out" = some (⟨1,
        [[{ topic := "out", key := "k",
            value := [("value", Val.num 10), ("processed_at", Val.str "T0"),
              ("event_score", Val.num 15)],
            timestamp := 5, partition := 0 }]]⟩ : Topic) := by
  obtain ⟨b2, p, hnn, hlt, hsweep, hget, _⟩ := processor_pipeline_end_to_end hzero 5 "T0"
    "g" "in" "out" pipeBroker inMsg ⟨1, [[inMsg]]⟩ ⟨1, [[]]⟩ 10 rfl (by decide) rfl rfl rfl
    (by decide) rfl
  have hlt' : p < (1 : Int) := by simpa using hlt
  have hp0 : p = 0 := by omega
  refine ⟨b2, hsweep, ?_⟩
  rw [hget, hp0]
  norm_num [appendAt, assocSet, inMsg]
  decide

end StreamSys
